import Mathlib

/-!
Verification of the AI_Handler service (src/main.py) against its specification.

The file shallowly embeds the program:
* `extract_text_from_html` (main.py lines 11-38): each `re.sub` pass is a
  recursive function over `List Char`, faithful to the leftmost-match,
  greedy/non-greedy semantics of the concrete patterns used by the source.
  The scanning passes recurse on non-tail suffixes, so they are written with
  an explicit fuel argument (initialised to the input length, which always
  suffices: every recursive call consumes at least one character); this keeps
  them structurally recursive and hence evaluable by `decide`.
* the session store, reaper and HTTP handlers (main.py lines 41-192):
  executable handler functions over an explicit state, and a step relation
  interleaving them.  Under asyncio, each handler's store-mutating section
  contains no `await`, so handlers are modelled as atomic steps.
-/

set_option maxRecDepth 40000

namespace AIHandler

open scoped List

/-! ## Text Normalizer (main.py lines 11-38) -/

/-- Python whitespace: the characters for which `str.isspace()` is true.
This is CPython's `Py_UNICODE_ISSPACE` set — for ASCII the characters
09-0D, 1C-1F and space, and beyond ASCII the Unicode whitespace code points
U+0085, U+00A0, U+1680, U+2000-200A, U+2028, U+2029, U+202F, U+205F and
U+3000.  Both `\s` in a str pattern (the `\s*` of main.py lines 22-23) and
the default `str.strip()` (main.py line 36) use exactly this set. -/
def isPySpace (c : Char) : Bool :=
  let n := c.toNat
  (0x09 ≤ n && n ≤ 0x0d) || n == 0x20 || (0x1c ≤ n && n ≤ 0x1f) ||
  n == 0x85 || n == 0xa0 || n == 0x1680 ||
  (0x2000 ≤ n && n ≤ 0x200a) || n == 0x2028 || n == 0x2029 ||
  n == 0x202f || n == 0x205f || n == 0x3000

/-- Drop characters up to and including the first `'>'`; `none` if there is
no `'>'`.  This is how `[^>]*>` consumes input: `[^>]*` cannot cross a `'>'`,
so a match extends exactly to the first `'>'`. -/
def splitAfterGt : List Char → Option (List Char)
  | [] => none
  | c :: t => if c = '>' then some t else splitAfterGt t

theorem splitAfterGt_len : ∀ {l a : List Char}, splitAfterGt l = some a → a.length < l.length := by
  intro l
  induction l with
  | nil => intro a h; simp [splitAfterGt] at h
  | cons c t ih =>
    intro a h
    simp only [splitAfterGt] at h
    split at h
    · cases h; simp
    · have := ih h; simp; omega

theorem splitAfterGt_eq_none : ∀ {l : List Char}, splitAfterGt l = none → '>' ∉ l := by
  intro l
  induction l with
  | nil => intro _; simp
  | cons c t ih =>
    intro h
    simp only [splitAfterGt] at h
    split at h
    · cases h
    · have := ih h
      simp only [List.mem_cons]
      rintro (rfl | hm)
      · exact ‹¬ ('>' : Char) = '>'› rfl
      · exact this hm

/-- Drop characters through the first occurrence of `cl` (a nonempty literal);
`none` when `cl` does not occur.  Models the search for the end literal of a
non-greedy `.*?` (with `re.DOTALL`, `.` matches every character, so the match
ends at the first occurrence of the closing literal). -/
def dropThrough (cl : List Char) : List Char → Option (List Char)
  | [] => none
  | c :: t => if cl.isPrefixOf (c :: t) then some (t.drop (cl.length - 1)) else dropThrough cl t

theorem dropThrough_len : ∀ {cl l a : List Char}, dropThrough cl l = some a → a.length < l.length := by
  intro cl l
  induction l with
  | nil => intro a h; simp [dropThrough] at h
  | cons c t ih =>
    intro a h
    simp only [dropThrough] at h
    split at h
    · cases h; simp [List.length_drop]; omega
    · have := ih h; simp; omega

/-- `re.sub(op + '.*?' + cl, '', s, flags=re.DOTALL)` for literals `op`, `cl`
(main.py lines 14, 15, 18), fuelled.  At each position: if the opening
literal matches and the closing literal occurs afterwards, the whole span is
deleted and scanning resumes after it; if the opening literal matches but the
closing literal never occurs afterwards, no further match is possible
anywhere (for the literals used, `op` contains `'<'` only at its head and
`cl` never overlaps itself, so any later candidate would need a closing
occurrence inside the region already searched), and the rest is kept
verbatim. -/
def removeSpansF (op cl : List Char) : Nat → List Char → List Char
  | 0, l => l
  | _ + 1, [] => []
  | fuel + 1, c :: rest =>
    if op.isPrefixOf (c :: rest) then
      match dropThrough cl ((c :: rest).drop op.length) with
      | some after => removeSpansF op cl fuel after
      | none => c :: rest
    else c :: removeSpansF op cl fuel rest

def removeSpans (op cl l : List Char) : List Char :=
  removeSpansF op cl l.length l

theorem removeSpansF_fuel : ∀ (f₁ f₂ : Nat) (op cl l : List Char),
    l.length ≤ f₁ → l.length ≤ f₂ → removeSpansF op cl f₁ l = removeSpansF op cl f₂ l := by
  intro f₁
  induction f₁ with
  | zero =>
    intro f₂ op cl l h1 _
    have : l = [] := List.eq_nil_of_length_eq_zero (Nat.le_zero.mp h1)
    subst this
    cases f₂ <;> rfl
  | succ f ih =>
    intro f₂ op cl l h1 h2
    cases l with
    | nil => cases f₂ <;> rfl
    | cons c rest =>
      cases f₂ with
      | zero => simp at h2
      | succ g =>
        simp only [removeSpansF]
        simp only [List.length_cons] at h1 h2
        by_cases hp : op.isPrefixOf (c :: rest) = true
        · simp only [hp, if_pos]
          cases hd : dropThrough cl ((c :: rest).drop op.length) with
          | none => rfl
          | some after =>
            have hl := dropThrough_len hd
            have hdl : ((c :: rest).drop op.length).length ≤ rest.length + 1 := by
              simp [List.length_drop]
            exact ih g op cl after (by omega) (by omega)
        · simp only [hp, if_neg, Bool.false_eq_true, not_false_iff]
          rw [ih g op cl rest (by omega) (by omega)]

theorem removeSpans_pos {op cl : List Char} {c : Char} {t after : List Char}
    (hp : op.isPrefixOf (c :: t) = true)
    (h : dropThrough cl ((c :: t).drop op.length) = some after) :
    removeSpans op cl (c :: t) = removeSpans op cl after := by
  unfold removeSpans
  simp only [List.length_cons, removeSpansF, hp, if_pos, h]
  apply removeSpansF_fuel
  · have hl := dropThrough_len h
    have : ((c :: t).drop op.length).length ≤ t.length + 1 := by simp [List.length_drop]
    omega
  · exact Nat.le_refl _

theorem removeSpans_eq_of_not_infix {o : Char} {op' cl : List Char} :
    ∀ {l : List Char}, ¬ ((o :: op') <:+: l) → removeSpans (o :: op') cl l = l := by
  intro l
  induction l with
  | nil => intro _; rfl
  | cons c rest ih =>
    intro h
    have hp : ¬ (o :: op').isPrefixOf (c :: rest) = true := by
      intro hpre
      exact h (List.IsPrefix.isInfix (List.isPrefixOf_iff_prefix.mp hpre))
    unfold removeSpans
    simp only [List.length_cons, removeSpansF, hp, if_neg, Bool.false_eq_true, not_false_iff]
    have hrest : ¬ ((o :: op') <:+: rest) := fun hi => h (List.infix_cons hi)
    have := ih hrest
    unfold removeSpans at this
    rw [this]

/-- `re.sub(r'<[^>]*>', ' ', s)` (main.py line 26), fuelled.  A match starts
at a `'<'` and succeeds exactly when some `'>'` occurs later; it consumes up
to the first such `'>'`.  When a `'<'` has no later `'>'`, no match exists
anywhere in the remaining text, which is kept verbatim. -/
def stripTagsF : Nat → List Char → List Char
  | 0, l => l
  | _ + 1, [] => []
  | fuel + 1, c :: rest =>
    if c = '<' then
      match splitAfterGt rest with
      | some after => ' ' :: stripTagsF fuel after
      | none => c :: rest
    else c :: stripTagsF fuel rest

def stripTags (l : List Char) : List Char :=
  stripTagsF l.length l

/-- ASCII lower-casing, for the `re.IGNORECASE` matches of main.py lines 22-23. -/
def lowerC (c : Char) : Char :=
  if 'A' ≤ c ∧ c ≤ 'Z' then Char.ofNat (c.toNat + 32) else c

/-- Case-insensitive literal match of `tag`, returning the remainder. -/
def ciStarts : List Char → List Char → Option (List Char)
  | [], l => some l
  | _ :: _, [] => none
  | t :: ts, c :: cs => if lowerC c = t then ciStarts ts cs else none

theorem ciStarts_len : ∀ {ts l a : List Char}, ciStarts ts l = some a → a.length ≤ l.length := by
  intro ts
  induction ts with
  | nil => intro l a h; cases h; omega
  | cons t ts ih =>
    intro l a h
    cases l with
    | nil => simp [ciStarts] at h
    | cons c cs =>
      simp only [ciStarts] at h
      split at h
      · have := ih h; simp; omega
      · cases h

/-- Match the remainder of `<\s*TAG[^>]*>` after the initial `'<'`
(main.py line 22): skip whitespace, match the tag case-insensitively, then
consume up to and including the first `'>'`. -/
def matchOpenTag (tag : List Char) (l : List Char) : Option (List Char) :=
  match ciStarts tag (l.dropWhile isPySpace) with
  | none => none
  | some l2 => splitAfterGt l2

theorem matchOpenTag_len : ∀ {tag l a : List Char}, matchOpenTag tag l = some a → a.length < l.length := by
  intro tag l a h
  unfold matchOpenTag at h
  split at h
  · cases h
  case _ l2 heq =>
    have h1 := splitAfterGt_len h
    have h2 := ciStarts_len heq
    have h3 := (@List.dropWhile_sublist _ l isPySpace).length_le
    omega

/-- Match the remainder of `<\s*/TAG\s*>` after the initial `'<'`
(main.py line 23). -/
def matchCloseTag (tag : List Char) (l : List Char) : Option (List Char) :=
  match l.dropWhile isPySpace with
  | '/' :: l1 =>
    match ciStarts tag l1 with
    | none => none
    | some l2 =>
      match l2.dropWhile isPySpace with
      | '>' :: l3 => some l3
      | _ => none
  | _ => none

theorem matchCloseTag_len : ∀ {tag l a : List Char}, matchCloseTag tag l = some a → a.length < l.length := by
  intro tag l a h
  unfold matchCloseTag at h
  split at h
  case _ l1 heq1 =>
    split at h
    · cases h
    case _ l2 heq2 =>
      split at h
      case _ l3 heq3 =>
        cases h
        have h1 := (@List.dropWhile_sublist _ l isPySpace).length_le
        have h2 : l1.length < l.length := by
          have : ('/' :: l1).length ≤ l.length := heq1 ▸ h1
          simp at this; omega
        have h3 := ciStarts_len heq2
        have h4 := (@List.dropWhile_sublist _ l2 isPySpace).length_le
        have h5 : a.length < l2.length := by
          have : ('>' :: a).length ≤ l2.length := heq3 ▸ h4
          simp at this; omega
        omega
      · cases h
  · cases h

/-- One pass of `re.sub(r'<\s*TAG[^>]*>', '\n', s, flags=re.IGNORECASE)`
(main.py line 22), fuelled.  A match can only start at a `'<'`; on failure
scanning resumes at the next character. -/
def openTagSubF (tag : List Char) : Nat → List Char → List Char
  | 0, l => l
  | _ + 1, [] => []
  | fuel + 1, c :: rest =>
    if c = '<' then
      match matchOpenTag tag rest with
      | some after => '\n' :: openTagSubF tag fuel after
      | none => c :: openTagSubF tag fuel rest
    else c :: openTagSubF tag fuel rest

def openTagSub (tag l : List Char) : List Char :=
  openTagSubF tag l.length l

/-- One pass of `re.sub(r'<\s*/TAG\s*>', '\n', s, flags=re.IGNORECASE)`
(main.py line 23), fuelled. -/
def closeTagSubF (tag : List Char) : Nat → List Char → List Char
  | 0, l => l
  | _ + 1, [] => []
  | fuel + 1, c :: rest =>
    if c = '<' then
      match matchCloseTag tag rest with
      | some after => '\n' :: closeTagSubF tag fuel after
      | none => c :: closeTagSubF tag fuel rest
    else c :: closeTagSubF tag fuel rest

def closeTagSub (tag l : List Char) : List Char :=
  closeTagSubF tag l.length l

/-- The block-level tag list of main.py line 21. -/
def blockTags : List (List Char) :=
  [['p'], ['d','i','v'], ['h','1'], ['h','2'], ['h','3'], ['h','4'], ['h','5'], ['h','6'],
   ['l','i'], ['b','r'], ['t','r']]

/-- The loop of main.py lines 21-23: for each tag, the opening-tag pass then
the closing-tag pass. -/
def blockPass (l : List Char) : List Char :=
  blockTags.foldl (fun acc tag => closeTagSub tag (openTagSub tag acc)) l

/-- `re.sub(r' +', ' ', s)` (main.py line 30): collapse runs of spaces. -/
def collapseSpaces : List Char → List Char
  | [] => []
  | [c] => [c]
  | c :: d :: rest =>
    if c = ' ' ∧ d = ' ' then collapseSpaces (d :: rest)
    else c :: collapseSpaces (d :: rest)

/-- `re.sub(r'\n{3,}', '\n\n', s)` (main.py line 32): every maximal run of
three or more newlines becomes exactly two (repeatedly reducing the leftmost
triple yields the same result as replacing the greedy match). -/
def collapseNewlines : List Char → List Char
  | [] => []
  | [c] => [c]
  | [c, d] => [c, d]
  | c :: d :: e :: rest =>
    if c = '\n' ∧ d = '\n' ∧ e = '\n' then collapseNewlines (d :: e :: rest)
    else c :: collapseNewlines (d :: e :: rest)

/-- Split on `'\n'`; always returns at least one (possibly empty) line. -/
def splitNl : List Char → List (List Char)
  | [] => [[]]
  | c :: t =>
    if c = '\n' then [] :: splitNl t
    else
      match splitNl t with
      | [] => [[c]]
      | h :: r => (c :: h) :: r

/-- Rejoin lines with `'\n'`. -/
def joinNl : List (List Char) → List Char
  | [] => []
  | [l] => l
  | l :: r => l ++ '\n' :: joinNl r

/-- Remove trailing characters satisfying `p`. -/
def dropTrailing (p : Char → Bool) (l : List Char) : List Char :=
  (l.reverse.dropWhile p).reverse

/-- Strip space characters (exactly `' '`, as in the pattern `^ +| +$`) from
both ends of one line. -/
def stripSpacesEnds (l : List Char) : List Char :=
  dropTrailing (fun c => c = ' ') (l.dropWhile (fun c => c = ' '))

/-- `re.sub(r'^ +| +$', '', s, flags=re.MULTILINE)` (main.py line 34):
strip the spaces at the start and end of every line. -/
def lineStrip (l : List Char) : List Char :=
  joinNl ((splitNl l).map stripSpacesEnds)

/-- Python `str.strip()` (main.py line 36) over the ASCII whitespace set. -/
def pyStrip (l : List Char) : List Char :=
  dropTrailing isPySpace (l.dropWhile isPySpace)

def scriptOpen : List Char := ['<','s','c','r','i','p','t']
def scriptClose : List Char := ['<','/','s','c','r','i','p','t','>']
def styleOpen : List Char := ['<','s','t','y','l','e']
def styleClose : List Char := ['<','/','s','t','y','l','e','>']
def commentOpen : List Char := ['<','!','-','-']
def commentClose : List Char := ['-','-','>']

/-- The full pipeline of main.py lines 11-38, in source order. -/
def normalizePipeline (l : List Char) : List Char :=
  pyStrip (lineStrip (collapseNewlines (collapseSpaces (stripTags (blockPass
    (removeSpans commentOpen commentClose
      (removeSpans styleOpen styleClose
        (removeSpans scriptOpen scriptClose l))))))))

/-- `extract_text_from_html` (main.py lines 11-38). -/
def extract_text_from_html (s : String) : String :=
  ⟨normalizePipeline s.data⟩

theorem data_mk (l : List Char) : (String.mk l).data = l := rfl

theorem extract_text_from_html_data (s : String) :
    (extract_text_from_html s).data = normalizePipeline s.data := by
  simp only [extract_text_from_html, data_mk]

/-! ## Lemmas about the Text Normalizer -/

/-- No `'<'` in the list is followed (at any later position) by a `'>'`:
equivalently, no substring matches a complete tag `<...>`. -/
def noLtGtB : List Char → Bool
  | [] => true
  | c :: rest => if c = '<' then !(rest.contains '>') else noLtGtB rest

theorem noLtGtB_of_not_mem_gt : ∀ {l : List Char}, '>' ∉ l → noLtGtB l = true := by
  intro l
  induction l with
  | nil => intro _; rfl
  | cons c rest ih =>
    intro h
    have h1 : '>' ∉ rest := fun hm => h (List.mem_cons_of_mem _ hm)
    simp only [noLtGtB]
    split
    · simp only [List.contains, Bool.not_eq_true']
      rw [List.elem_eq_mem]
      simpa using h1
    · exact ih h1

theorem noLtGtB_sublist : ∀ {l' l : List Char}, l' <+ l → noLtGtB l = true → noLtGtB l' = true := by
  intro l' l h
  induction h with
  | slnil => exact fun h => h
  | @cons l1 l2 a hsub ih =>
    intro hl
    apply ih
    simp only [noLtGtB] at hl
    split at hl
    · apply noLtGtB_of_not_mem_gt
      simp only [List.contains, Bool.not_eq_true'] at hl
      rw [List.elem_eq_mem] at hl
      simpa using hl
    · exact hl
  | @cons₂ l1 l2 a hsub ih =>
    intro hl
    simp only [noLtGtB] at hl ⊢
    split at hl
    · rw [if_pos ‹a = '<'›]
      simp only [List.contains, Bool.not_eq_true'] at hl ⊢
      rw [List.elem_eq_mem] at hl
      rw [List.elem_eq_mem]
      have h2 : '>' ∉ l2 := by simpa using hl
      have h1 : '>' ∉ l1 := fun hm => h2 (hsub.subset hm)
      simpa using h1
    · rw [if_neg ‹¬ a = '<'›]
      exact ih hl

theorem noLtGtB_stripTagsF : ∀ (f : Nat) (l : List Char),
    l.length ≤ f → noLtGtB (stripTagsF f l) = true := by
  intro f
  induction f with
  | zero =>
    intro l h
    have : l = [] := List.eq_nil_of_length_eq_zero (Nat.le_zero.mp h)
    subst this
    rfl
  | succ f ih =>
    intro l h
    cases l with
    | nil => rfl
    | cons c rest =>
      simp only [stripTagsF]
      simp only [List.length_cons] at h
      by_cases hc : c = '<'
      · simp only [if_pos hc]
        cases hs : splitAfterGt rest with
        | some after =>
          have hlen := splitAfterGt_len hs
          have := ih after (by omega)
          simpa [noLtGtB] using this
        | none =>
          have h2 := splitAfterGt_eq_none hs
          subst hc
          apply noLtGtB_of_not_mem_gt
          simpa using h2
      · simp only [if_neg hc]
        have := ih rest (by omega)
        simpa [noLtGtB, hc] using this

theorem noLtGtB_stripTags (l : List Char) : noLtGtB (stripTags l) = true :=
  noLtGtB_stripTagsF l.length l (Nat.le_refl _)

theorem collapseSpaces_sublist : ∀ l : List Char, collapseSpaces l <+ l := by
  intro l
  induction l using collapseSpaces.induct with
  | case1 => exact List.Sublist.refl _
  | case2 c => exact List.Sublist.refl _
  | case3 c d rest hcd ih =>
    rw [collapseSpaces, if_pos hcd]
    exact ih.trans (List.sublist_cons_self _ _)
  | case4 c d rest hcd ih =>
    rw [collapseSpaces, if_neg hcd]
    exact ih.cons₂ c

theorem collapseNewlines_sublist : ∀ l : List Char, collapseNewlines l <+ l := by
  intro l
  induction l using collapseNewlines.induct with
  | case1 => exact List.Sublist.refl _
  | case2 c => exact List.Sublist.refl _
  | case3 c d => exact List.Sublist.refl _
  | case4 c d e rest hcd ih =>
    rw [collapseNewlines, if_pos hcd]
    exact ih.trans (List.sublist_cons_self _ _)
  | case5 c d e rest hcd ih =>
    rw [collapseNewlines, if_neg hcd]
    exact ih.cons₂ c

theorem dropTrailing_sublist (p : Char → Bool) (l : List Char) : dropTrailing p l <+ l := by
  unfold dropTrailing
  have h := (@List.dropWhile_sublist _ l.reverse p).reverse
  simpa using h

theorem stripSpacesEnds_sublist (l : List Char) : stripSpacesEnds l <+ l :=
  (dropTrailing_sublist _ _).trans (List.dropWhile_sublist _)

theorem pyStrip_sublist (l : List Char) : pyStrip l <+ l :=
  (dropTrailing_sublist _ _).trans (List.dropWhile_sublist _)

theorem splitNl_ne_nil : ∀ l : List Char, splitNl l ≠ [] := by
  intro l
  cases l with
  | nil => simp [splitNl]
  | cons c t =>
    simp only [splitNl]
    split
    · simp
    · cases h : splitNl t <;> simp

theorem joinNl_splitNl : ∀ l : List Char, joinNl (splitNl l) = l := by
  intro l
  induction l with
  | nil => rfl
  | cons c t ih =>
    simp only [splitNl]
    by_cases hc : c = '\n'
    · rw [if_pos hc, hc]
      cases h : splitNl t with
      | nil => exact absurd h (splitNl_ne_nil t)
      | cons a r =>
        rw [h] at ih
        simp only [joinNl, List.nil_append]
        rw [ih]
    · rw [if_neg hc]
      cases h : splitNl t with
      | nil => exact absurd h (splitNl_ne_nil t)
      | cons a r =>
        rw [h] at ih
        cases r with
        | nil =>
          simp only [joinNl] at ih ⊢
          rw [ih]
        | cons b r2 =>
          simp only [joinNl] at ih ⊢
          rw [List.cons_append, ih]

theorem joinNl_map_sublist (g : List Char → List Char) (hg : ∀ x, g x <+ x) :
    ∀ parts : List (List Char), joinNl (parts.map g) <+ joinNl parts := by
  intro parts
  induction parts with
  | nil => exact List.Sublist.refl _
  | cons h r ih =>
    cases r with
    | nil => simpa [joinNl] using hg h
    | cons h2 r2 =>
      simp only [List.map_cons, joinNl]
      exact (hg h).append (ih.cons₂ '\n')

theorem lineStrip_sublist (l : List Char) : lineStrip l <+ l := by
  unfold lineStrip
  have h := joinNl_map_sublist stripSpacesEnds stripSpacesEnds_sublist (splitNl l)
  rwa [joinNl_splitNl] at h

theorem noLtGtB_pipeline (l : List Char) : noLtGtB (normalizePipeline l) = true := by
  unfold normalizePipeline
  apply noLtGtB_sublist (pyStrip_sublist _)
  apply noLtGtB_sublist (lineStrip_sublist _)
  apply noLtGtB_sublist (collapseNewlines_sublist _)
  apply noLtGtB_sublist (collapseSpaces_sublist _)
  exact noLtGtB_stripTags _

/-! ## Claims C6, C7 -/

/-- C6: the Text Normalizer applied to
`<p>Hi</p><script>evil()</script><p>Bye</p>` returns exactly the string
`"Hi\n\nBye"`: two lines separated by exactly one blank line. -/
theorem c6_block_example :
    extract_text_from_html "<p>Hi</p><script>evil()</script><p>Bye</p>" = "Hi\n\nBye" := by
  decide

/-- C7 counterexample: the claim says the output never contains `'<'` or
`'>'`, but on input `"<"` (a lone `'<'` with no later `'>'`) no pattern of
the pipeline matches, and the output is `"<"` itself. -/
theorem c7_counterexample :
    (extract_text_from_html "<").data.contains '<' = true := by
  decide

/-- C7 amended: for every input string, the output of the Text Normalizer
contains no complete tag-delimiter pair: no `'<'` in the output is followed,
at any later position, by a `'>'`.  (A lone `'<'` or `'>'` without a
counterpart can survive, as the counterexample shows.) -/
theorem c7_no_tag_pair_in_output (s : String) :
    noLtGtB (extract_text_from_html s).data = true := by
  rw [extract_text_from_html_data]
  exact noLtGtB_pipeline s.data

/-! ## Claim C8: script/style content removal -/

/-- If `cl` has no nontrivial self-overlap and does not occur inside `b`,
then scanning `b ++ cl ++ c` for the first occurrence of `cl` finds exactly
the marked one. -/
theorem dropThrough_marked (cl c : List Char) (hcl : cl ≠ [])
    (hnb : ∀ k, k < cl.length → 0 < k → cl.drop k ≠ cl.take (cl.length - k)) :
    ∀ b : List Char, ¬ (cl <:+: b) → dropThrough cl (b ++ (cl ++ c)) = some c := by
  intro b
  induction b with
  | nil =>
    intro _
    cases cl with
    | nil => exact absurd rfl hcl
    | cons d cl' =>
      rw [List.nil_append, List.cons_append, dropThrough]
      rw [if_pos (by rw [List.isPrefixOf_iff_prefix]; rw [← List.cons_append]; exact List.prefix_append _ _)]
      simp only [List.length_cons, Nat.add_sub_cancel]
      rw [List.drop_left]
  | cons x b' ih =>
    intro h
    have hx : ¬ (cl <:+: b') := fun hi => h (List.infix_cons hi)
    rw [List.cons_append, dropThrough]
    by_cases hp : cl.isPrefixOf (x :: (b' ++ (cl ++ c))) = true
    · exfalso
      have hpre : cl <+: (x :: b') ++ (cl ++ c) := by
        have := List.isPrefixOf_iff_prefix.mp hp
        simpa using this
      by_cases hk : cl.length ≤ (x :: b').length
      · have htake : cl = ((x :: b') ++ (cl ++ c)).take cl.length :=
          List.prefix_iff_eq_take.mp hpre
        rw [List.take_append_of_le_length hk] at htake
        have : cl <+: (x :: b') := htake ▸ List.take_prefix _ _
        exact h this.isInfix
      · push_neg at hk
        simp only [List.length_cons] at hk
        have htake : cl = ((x :: b') ++ (cl ++ c)).take cl.length :=
          List.prefix_iff_eq_take.mp hpre
        rw [List.take_append_eq_append_take,
            List.take_all_of_le (by simp only [List.length_cons]; omega : (x :: b').length ≤ cl.length),
            List.take_append_of_le_length
              (by simp only [List.length_cons]; omega : cl.length - (x :: b').length ≤ cl.length)]
          at htake
        have hdrop : cl.drop (x :: b').length = cl.take (cl.length - (x :: b').length) := by
          conv_lhs => rw [htake]
          rw [List.drop_left]
        exact hnb (x :: b').length (by simp only [List.length_cons]; omega)
          (by simp) hdrop
    · rw [if_neg hp]
      exact ih hx

/-- When the opening literal `o :: op'` heads the input, the body `b` does
not contain the closing literal `cl`, and `cl` has no self-overlap, the whole
span through the marked closing literal is removed and scanning continues
after it. -/
theorem removeSpans_marked {o : Char} (op' cl c : List Char) (hcl : cl ≠ [])
    (hnb : ∀ k, k < cl.length → 0 < k → cl.drop k ≠ cl.take (cl.length - k))
    (b : List Char) (hb : ¬ (cl <:+: b)) :
    removeSpans (o :: op') cl (o :: (op' ++ (b ++ (cl ++ c)))) =
      removeSpans (o :: op') cl c := by
  apply removeSpans_pos
  · rw [List.isPrefixOf_iff_prefix, ← List.cons_append]
    exact List.prefix_append _ _
  · simp only [List.length_cons, List.drop_succ_cons, List.drop_left]
    exact dropThrough_marked cl c hcl hnb b hb

theorem scriptClose_no_overlap :
    ∀ k, k < scriptClose.length → 0 < k →
      scriptClose.drop k ≠ scriptClose.take (scriptClose.length - k) := by
  decide

theorem styleClose_no_overlap :
    ∀ k, k < styleClose.length → 0 < k →
      styleClose.drop k ≠ styleClose.take (styleClose.length - k) := by
  decide

/-- C8 counterexample: the claim says the content of any script element never
appears in the output, but the script regex of main.py line 14 is
case-sensitive, so for `<SCRIPT>evil()</SCRIPT>` (a script element in HTML,
where tag names are case-insensitive) only the tags are stripped and the
content `evil()` is the entire output. -/
theorem c8_counterexample :
    extract_text_from_html "<SCRIPT>evil()</SCRIPT>" = "evil()" := by
  decide

/-- C8 amended: a script/style element written with lowercase tags and closed
by the literal `</script>` / `</style>` is removed together with its whole
content: for any body `b` not containing the closing literal,
`extract_text_from_html ("<script" ++ b ++ "</script>" ++ c)` equals
`extract_text_from_html c`, and correspondingly for style (there, provided no
lowercase `"<script"` occurs anywhere, since script removal runs first).
Content of other spellings (e.g. uppercase `<SCRIPT>`) is not removed, as the
counterexample shows. -/
theorem c8_lowercase_script_style_removed :
    (∀ b c : String, ¬ (scriptClose <:+: b.data) →
      extract_text_from_html ("<script" ++ b ++ "</script>" ++ c) =
        extract_text_from_html c) ∧
    (∀ b c : String, ¬ (styleClose <:+: b.data) →
      ¬ (scriptOpen <:+: ("<style" ++ b ++ "</style>" ++ c).data) →
      extract_text_from_html ("<style" ++ b ++ "</style>" ++ c) =
        extract_text_from_html c) := by
  constructor
  · intro b c hb
    have hdata : ("<script" ++ b ++ "</script>" ++ c).data =
        '<' :: (['s','c','r','i','p','t'] ++ (b.data ++ (scriptClose ++ c.data))) := by
      simp [String.data_append, scriptClose]
    simp only [extract_text_from_html, hdata]
    have h1 : removeSpans scriptOpen scriptClose
        ('<' :: (['s','c','r','i','p','t'] ++ (b.data ++ (scriptClose ++ c.data)))) =
        removeSpans scriptOpen scriptClose c.data := by
      have := @removeSpans_marked '<' ['s','c','r','i','p','t'] scriptClose c.data
        (by simp [scriptClose]) scriptClose_no_overlap b.data hb
      simpa [scriptOpen] using this
    rw [normalizePipeline, normalizePipeline, h1]
  · intro b c hb hscript
    have hdata : ("<style" ++ b ++ "</style>" ++ c).data =
        '<' :: (['s','t','y','l','e'] ++ (b.data ++ (styleClose ++ c.data))) := by
      simp [String.data_append, styleClose]
    have hscript' : ¬ (scriptOpen <:+:
        ('<' :: (['s','t','y','l','e'] ++ (b.data ++ (styleClose ++ c.data))))) := by
      rw [← hdata]; exact hscript
    have hscriptc : ¬ (scriptOpen <:+: c.data) := by
      intro hi
      apply hscript'
      refine hi.trans ?_
      refine (List.IsSuffix.isInfix ?_)
      refine ⟨'<' :: (['s','t','y','l','e'] ++ b.data ++ styleClose), by simp⟩
    simp only [extract_text_from_html, hdata]
    have h0 : removeSpans scriptOpen scriptClose
        ('<' :: (['s','t','y','l','e'] ++ (b.data ++ (styleClose ++ c.data)))) =
        '<' :: (['s','t','y','l','e'] ++ (b.data ++ (styleClose ++ c.data))) := by
      have : scriptOpen = '<' :: ['s','c','r','i','p','t'] := rfl
      rw [this] at hscript' ⊢
      exact removeSpans_eq_of_not_infix hscript'
    have h0c : removeSpans scriptOpen scriptClose c.data = c.data := by
      have : scriptOpen = '<' :: ['s','c','r','i','p','t'] := rfl
      rw [this] at hscriptc ⊢
      exact removeSpans_eq_of_not_infix hscriptc
    have h1 : removeSpans styleOpen styleClose
        ('<' :: (['s','t','y','l','e'] ++ (b.data ++ (styleClose ++ c.data)))) =
        removeSpans styleOpen styleClose c.data := by
      have := @removeSpans_marked '<' ['s','t','y','l','e'] styleClose c.data
        (by simp [styleClose]) styleClose_no_overlap b.data hb
      simpa [styleOpen] using this
    rw [normalizePipeline, normalizePipeline, h0, h0c, h1]

/-- C8 witness: instantiation at concrete strings. -/
theorem c8_witness :
    extract_text_from_html ("<script" ++ "var x = 1;" ++ "</script>" ++ "<p>ok</p>") =
      extract_text_from_html "<p>ok</p>" :=
  c8_lowercase_script_style_removed.1 "var x = 1;" "<p>ok</p>" (by decide)

/-! ## Claim C9: idempotence -/

/-- No two adjacent spaces. -/
def noDoubleSpace : List Char → Bool
  | c :: d :: rest => !(c == ' ' && d == ' ') && noDoubleSpace (d :: rest)
  | _ => true

/-- No three adjacent newlines. -/
def noTripleNl : List Char → Bool
  | c :: d :: e :: rest => !(c == '\n' && d == '\n' && e == '\n') && noTripleNl (d :: e :: rest)
  | _ => true

/-- Normal-form text: no tag-delimiter characters, runs of at most one space
and at most two newlines, no space at either end of any line, and no
leading/trailing whitespace. -/
def Normalized (l : List Char) : Bool :=
  l.all (fun c => !(c == '<') && !(c == '>')) &&
  noDoubleSpace l &&
  noTripleNl l &&
  (splitNl l).all (fun ln => (ln.head? != some ' ') && (ln.getLast? != some ' ')) &&
  (match l.head? with | some c => !isPySpace c | none => true) &&
  (match l.getLast? with | some c => !isPySpace c | none => true)

theorem mem_of_infix_head {o : Char} {op' l : List Char} (h : (o :: op') <:+: l) : o ∈ l := by
  obtain ⟨s, t, rfl⟩ := h
  simp

theorem removeSpans_id_of_not_mem {o : Char} {op' cl l : List Char} (h : o ∉ l) :
    removeSpans (o :: op') cl l = l :=
  removeSpans_eq_of_not_infix (fun hi => h (mem_of_infix_head hi))

theorem stripTagsF_id : ∀ (f : Nat) (l : List Char),
    l.length ≤ f → '<' ∉ l → stripTagsF f l = l := by
  intro f
  induction f with
  | zero =>
    intro l h _
    have : l = [] := List.eq_nil_of_length_eq_zero (Nat.le_zero.mp h)
    subst this; rfl
  | succ f ih =>
    intro l h hmem
    cases l with
    | nil => rfl
    | cons c rest =>
      have hc : ¬ c = '<' := fun hh => hmem (hh ▸ List.mem_cons_self c rest)
      have hrest : '<' ∉ rest := fun hm => hmem (List.mem_cons_of_mem _ hm)
      simp only [List.length_cons] at h
      simp only [stripTagsF, if_neg hc]
      rw [ih rest (by omega) hrest]

theorem stripTags_id {l : List Char} (h : '<' ∉ l) : stripTags l = l :=
  stripTagsF_id l.length l (Nat.le_refl _) h

theorem openTagSubF_id : ∀ (tag : List Char) (f : Nat) (l : List Char),
    l.length ≤ f → '<' ∉ l → openTagSubF tag f l = l := by
  intro tag f
  induction f with
  | zero =>
    intro l h _
    have : l = [] := List.eq_nil_of_length_eq_zero (Nat.le_zero.mp h)
    subst this; rfl
  | succ f ih =>
    intro l h hmem
    cases l with
    | nil => rfl
    | cons c rest =>
      have hc : ¬ c = '<' := fun hh => hmem (hh ▸ List.mem_cons_self c rest)
      have hrest : '<' ∉ rest := fun hm => hmem (List.mem_cons_of_mem _ hm)
      simp only [List.length_cons] at h
      simp only [openTagSubF, if_neg hc]
      rw [ih rest (by omega) hrest]

theorem closeTagSubF_id : ∀ (tag : List Char) (f : Nat) (l : List Char),
    l.length ≤ f → '<' ∉ l → closeTagSubF tag f l = l := by
  intro tag f
  induction f with
  | zero =>
    intro l h _
    have : l = [] := List.eq_nil_of_length_eq_zero (Nat.le_zero.mp h)
    subst this; rfl
  | succ f ih =>
    intro l h hmem
    cases l with
    | nil => rfl
    | cons c rest =>
      have hc : ¬ c = '<' := fun hh => hmem (hh ▸ List.mem_cons_self c rest)
      have hrest : '<' ∉ rest := fun hm => hmem (List.mem_cons_of_mem _ hm)
      simp only [List.length_cons] at h
      simp only [closeTagSubF, if_neg hc]
      rw [ih rest (by omega) hrest]

theorem openTagSub_id {tag l : List Char} (h : '<' ∉ l) : openTagSub tag l = l :=
  openTagSubF_id tag l.length l (Nat.le_refl _) h

theorem closeTagSub_id {tag l : List Char} (h : '<' ∉ l) : closeTagSub tag l = l :=
  closeTagSubF_id tag l.length l (Nat.le_refl _) h

theorem blockPass_id {l : List Char} (h : '<' ∉ l) : blockPass l = l := by
  unfold blockPass
  induction blockTags with
  | nil => rfl
  | cons tag tags ih =>
    simp only [List.foldl_cons]
    rw [openTagSub_id h, closeTagSub_id h]
    exact ih

theorem collapseSpaces_id : ∀ {l : List Char}, noDoubleSpace l = true → collapseSpaces l = l := by
  intro l
  induction l using collapseSpaces.induct with
  | case1 => intro _; rfl
  | case2 c => intro _; rfl
  | case3 c d rest hcd ih =>
    intro h
    exfalso
    simp only [noDoubleSpace, Bool.and_eq_true, Bool.not_eq_true', Bool.and_eq_false_iff] at h
    rcases h.1 with h1 | h1 <;> simp [hcd.1, hcd.2] at h1
  | case4 c d rest hcd ih =>
    intro h
    simp only [noDoubleSpace, Bool.and_eq_true] at h
    rw [collapseSpaces, if_neg hcd, ih h.2]

theorem collapseNewlines_id : ∀ {l : List Char}, noTripleNl l = true → collapseNewlines l = l := by
  intro l
  induction l using collapseNewlines.induct with
  | case1 => intro _; rfl
  | case2 c => intro _; rfl
  | case3 c d => intro _; rfl
  | case4 c d e rest hcd ih =>
    intro h
    exfalso
    simp only [noTripleNl, Bool.and_eq_true, Bool.not_eq_true'] at h
    obtain ⟨rfl, rfl, rfl⟩ := hcd
    simp at h
  | case5 c d e rest hcd ih =>
    intro h
    simp only [noTripleNl, Bool.and_eq_true] at h
    rw [collapseNewlines, if_neg hcd, ih h.2]

theorem stripSpacesEnds_id {l : List Char}
    (h1 : l.head? ≠ some ' ') (h2 : l.getLast? ≠ some ' ') :
    stripSpacesEnds l = l := by
  unfold stripSpacesEnds dropTrailing
  have hdw : l.dropWhile (fun c => c = ' ') = l := by
    cases l with
    | nil => rfl
    | cons c t =>
      have hc : ¬ c = ' ' := by
        intro hh
        exact h1 (by rw [List.head?_cons, hh])
      rw [List.dropWhile_cons, if_neg (by simpa using hc)]
  rw [hdw]
  have hrv : l.reverse.dropWhile (fun c => c = ' ') = l.reverse := by
    cases hr : l.reverse with
    | nil => rfl
    | cons c t =>
      have hlast : l.getLast? = some c := by
        rw [← List.head?_reverse, hr, List.head?_cons]
      have hc : ¬ c = ' ' := by
        intro hh
        exact h2 (by rw [hlast, hh])
      rw [List.dropWhile_cons, if_neg (by simpa using hc)]
  rw [hrv, List.reverse_reverse]

theorem lineStrip_id {l : List Char}
    (h : (splitNl l).all (fun ln => (ln.head? != some ' ') && (ln.getLast? != some ' ')) = true) :
    lineStrip l = l := by
  unfold lineStrip
  rw [List.all_eq_true] at h
  have hlines : ∀ ln ∈ splitNl l, stripSpacesEnds ln = ln := by
    intro ln hln
    have := h ln hln
    simp only [Bool.and_eq_true, bne_iff_ne, ne_eq] at this
    exact stripSpacesEnds_id this.1 this.2
  have hmap : (splitNl l).map stripSpacesEnds = splitNl l := by
    calc (splitNl l).map stripSpacesEnds
        = (splitNl l).map id := List.map_congr_left (fun a ha => by rw [hlines a ha]; rfl)
      _ = splitNl l := List.map_id _
  rw [hmap, joinNl_splitNl]

theorem pyStrip_id {l : List Char}
    (h1 : (match l.head? with | some c => !isPySpace c | none => true) = true)
    (h2 : (match l.getLast? with | some c => !isPySpace c | none => true) = true) :
    pyStrip l = l := by
  unfold pyStrip dropTrailing
  have hdw : l.dropWhile isPySpace = l := by
    cases l with
    | nil => rfl
    | cons c t =>
      have h1c : (!isPySpace c) = true := h1
      rw [List.dropWhile_cons, if_neg (by simpa using h1c)]
  rw [hdw]
  have hrv : l.reverse.dropWhile isPySpace = l.reverse := by
    cases hr : l.reverse with
    | nil => rfl
    | cons c t =>
      have hlast : l.getLast? = some c := by
        rw [← List.head?_reverse, hr, List.head?_cons]
      rw [hlast] at h2
      have h2c : (!isPySpace c) = true := h2
      rw [List.dropWhile_cons, if_neg (by simpa using h2c)]
  rw [hrv, List.reverse_reverse]

theorem normalizePipeline_id {l : List Char} (h : Normalized l = true) :
    normalizePipeline l = l := by
  unfold Normalized at h
  simp only [Bool.and_eq_true] at h
  obtain ⟨⟨⟨⟨⟨hchars, hsp⟩, hnl⟩, hlines⟩, hhead⟩, hlast⟩ := h
  have hlt : '<' ∉ l := by
    rw [List.all_eq_true] at hchars
    intro hm
    have := hchars '<' hm
    simp at this
  unfold normalizePipeline
  rw [show scriptOpen = '<' :: ['s','c','r','i','p','t'] from rfl,
      removeSpans_id_of_not_mem hlt,
      show styleOpen = '<' :: ['s','t','y','l','e'] from rfl,
      removeSpans_id_of_not_mem hlt,
      show commentOpen = '<' :: ['!','-','-'] from rfl,
      removeSpans_id_of_not_mem hlt,
      blockPass_id hlt, stripTags_id hlt,
      collapseSpaces_id hsp, collapseNewlines_id hnl,
      lineStrip_id hlines, pyStrip_id hhead hlast]

/-- C9 counterexample: idempotence fails.  On `"a\n\n \n\nb"` the first pass
line-strips the middle space-only line, producing `"a\n\n\n\nb"` with a run
of four newlines, which a second pass collapses to `"a\n\nb"`. -/
theorem c9_counterexample :
    (extract_text_from_html (extract_text_from_html "a\n\n \n\nb") ==
      extract_text_from_html "a\n\n \n\nb") = false := by
  decide

/-- C9 amended: the Text Normalizer is the identity on text already in normal
form — no `<`/`>` characters, no two adjacent spaces, at most two consecutive
newlines, no space at the start or end of any line, and no leading or
trailing whitespace.  Full idempotence `f (f s) = f s` fails, because the
output of one pass need not be in this normal form (line-stripping can merge
blank lines into runs of three or more newlines), as the counterexample
shows. -/
theorem c9_identity_on_normalized (s : String) (h : Normalized s.data = true) :
    extract_text_from_html s = s := by
  cases s with
  | mk l =>
    simp only [data_mk] at h
    simp only [extract_text_from_html, data_mk]
    rw [normalizePipeline_id h]

/-- C9 witness: `"Hi\n\nBye"` is in normal form and is a fixed point. -/
theorem c9_witness :
    Normalized "Hi\n\nBye".data = true ∧ extract_text_from_html "Hi\n\nBye" = "Hi\n\nBye" :=
  ⟨by decide, c9_identity_on_normalized "Hi\n\nBye" (by decide)⟩

/-! ## Session store and lifecycle (main.py lines 41-192)

The handlers run under asyncio in a single event loop.  Every store-mutating
section of the source (the membership check / `stop()` / `pop` of `logout`,
the body of one reaper iteration, the `sessions[sid] = ...` registration, the
`last` updates) contains no `await`, so each handler application is one
atomic step of the relation `Step` below.  Session ids
(`secrets.token_urlsafe(16)`) and browser handles are modelled by fresh
counters: tokens are unguessable and never repeat. -/

/-- main.py line 42. -/
def SESSION_TIMEOUT : Int := 10 * 60

/-- main.py line 43. -/
def CLEANUP_INTERVAL : Int := 30

/-- One entry of the `sessions` dict (main.py lines 99-103): the browser
handle identity and the `last` access time.  The `page` handle is bound to
the browser and plays no role in the lifecycle claims. -/
structure SessionInfo where
  browser : Nat
  last : Int
deriving DecidableEq

/-- Process state: the `sessions` dict (as an association list with distinct
keys), fresh-token counters, plus instrumentation of the observable effects:
the log of `browser.stop()` calls and the ids that have been removed.
`down` records that process shutdown has run (no handler runs afterwards). -/
structure St where
  sessions : List (Nat × SessionInfo)
  nextSid : Nat
  nextBrowser : Nat
  stopped : List Nat
  removed : List Nat
  down : Bool
deriving DecidableEq

def initSt : St := ⟨[], 0, 0, [], [], false⟩

/-- Dict lookup `sessions[sid]` / membership `sid in sessions`. -/
def lookupSid (sid : Nat) : List (Nat × SessionInfo) → Option SessionInfo
  | [] => none
  | (k, v) :: t => if k = sid then some v else lookupSid sid t

/-- `sessions[sid]['last'] = time.time()` (main.py lines 123, 137). -/
def touchL (sid : Nat) (now : Int) (l : List (Nat × SessionInfo)) : List (Nat × SessionInfo) :=
  l.map (fun p => if p.1 = sid then (p.1, ⟨p.2.browser, now⟩) else p)

inductive SimpleResp
  | ok
  | notFound
deriving DecidableEq

/-- `logout` (main.py lines 108-115): 404 when the id is unknown, otherwise
stop the browser and pop the entry. -/
def logoutH (st : St) (sid : Nat) : St × SimpleResp :=
  match lookupSid sid st.sessions with
  | none => (st, SimpleResp.notFound)
  | some info =>
    ({ st with
        sessions := st.sessions.filter (fun p => !(p.1 == sid)),
        stopped := st.stopped ++ [info.browser],
        removed := sid :: st.removed }, SimpleResp.ok)

/-- `refresh` (main.py lines 118-124): 404 when the id is unknown, otherwise
update `last`. -/
def refreshH (st : St) (sid : Nat) (now : Int) : St × SimpleResp :=
  match lookupSid sid st.sessions with
  | none => (st, SimpleResp.notFound)
  | some _ => ({ st with sessions := touchL sid now st.sessions }, SimpleResp.ok)

/-- Outcome of each fallible step of the login flow (main.py lines 82-95):
`true` means the awaited call returned, `false` that it raised. -/
structure CreateEnv where
  startOk : Bool
  navOk : Bool
  bodyOk : Bool
  emailSelOk : Bool
  emailKeysOk : Bool
  pwdSelOk : Bool
  pwdKeysOk : Bool
  btnFindOk : Bool
  btnClickOk : Bool
deriving DecidableEq

/-- All steps after the browser launch succeed. -/
def CreateEnv.loginOk (env : CreateEnv) : Bool :=
  env.navOk && env.bodyOk && env.emailSelOk && env.emailKeysOk &&
  env.pwdSelOk && env.pwdKeysOk && env.btnFindOk && env.btnClickOk

/-- `create_session` (main.py lines 75-105).  Any exception raised by the
awaited calls of lines 82-95 propagates out of the handler before the
registration `sessions[sid] = ...` on line 99, which is the only store
mutation.  A browser launched before a later failure is leaked (never
stopped, never registered). -/
def create_session (st : St) (now : Int) (env : CreateEnv) : St × Except Unit Nat :=
  if !env.startOk then (st, Except.error ())
  else
    let b := st.nextBrowser
    let st1 : St := { st with nextBrowser := st.nextBrowser + 1 }
    if !env.loginOk then (st1, Except.error ())
    else
      let sid := st1.nextSid
      ({ st1 with
          sessions := (sid, ⟨b, now⟩) :: st1.sessions,
          nextSid := sid + 1 }, Except.ok sid)

/-- The JSON value of `data.get('files')` (main.py line 134): absent/null, a
single string, or a list of strings.  `truthy` is Python truthiness, used by
`if files:` on line 141. -/
inductive FilesArg
  | null
  | str (s : String)
  | list (l : List String)
deriving DecidableEq

def FilesArg.truthy : FilesArg → Bool
  | .null => false
  | .str s => !(s == "")
  | .list l => !l.isEmpty

/-- `files if isinstance(files, list) else [files]` (main.py line 147). -/
def FilesArg.toPaths : FilesArg → List String
  | .null => []
  | .str s => [s]
  | .list l => l

/-- Outcomes of the engine interactions of one chat turn
(main.py lines 140-186). -/
structure ChatEnv where
  fileInputOk : Bool
  sendFileOk : String → Bool
  existsOnDisk : String → Bool
  chatInputOk : Bool
  promptKeysOk : Bool
  sendLoopTerm : Bool
  respLoopTerm : Bool
  responseElems : List String

inductive ChatOutcome
  | notFound
  | uploadFailure
  | fault
  | indexError
  | hangs
  | ok (response : String) (files_uploaded : Option FilesArg)
deriving DecidableEq

/-- The `for file_path in file_list` loop (main.py lines 149-153): paths that
exist on disk are passed to `send_file` (which may raise, aborting the loop);
missing paths are skipped with only a print.  Returns the paths actually
passed to `send_file` and whether the loop finished without an exception. -/
def uploadAll (env : ChatEnv) : List String → List String × Bool
  | [] => ([], true)
  | p :: rest =>
    if env.existsOnDisk p then
      if env.sendFileOk p then
        let r := uploadAll env rest
        (p :: r.1, r.2)
      else ([p], false)
    else uploadAll env rest

structure ChatRes where
  st : St
  outcome : ChatOutcome
  uploadsPerformed : List String

/-- main.py lines 161-192: the steps of a chat turn after attachment
handling.  The selector lookups of lines 162-163 are unguarded (an exception
is an unhandled fault); the send loop (166-172) and response-done loop
(176-181) swallow every exception and retry forever, so they either
eventually succeed or the turn hangs; line 185 takes `response_elements[-1]`
with no emptiness guard, an `IndexError` when no element matches; on success
the last element is normalized and echoed together with the raw `files`
value (`files if files else None`, line 191). -/
def afterUpload (st : St) (files : FilesArg) (env : ChatEnv) (ups : List String) : ChatRes :=
  if !env.chatInputOk then ⟨st, ChatOutcome.fault, ups⟩
  else if !env.promptKeysOk then ⟨st, ChatOutcome.fault, ups⟩
  else if !env.sendLoopTerm then ⟨st, ChatOutcome.hangs, ups⟩
  else if !env.respLoopTerm then ⟨st, ChatOutcome.hangs, ups⟩
  else
    match env.responseElems.getLast? with
    | none => ⟨st, ChatOutcome.indexError, ups⟩
    | some e => ⟨st, ChatOutcome.ok (extract_text_from_html e)
        (if files.truthy then some files else none), ups⟩

/-- `send_chat` (main.py lines 127-192): 404 gate, touch, best-effort
attachment block (`try`/`except` returning 500 on any exception), then the
interaction steps. -/
def send_chat (st : St) (sid : Nat) (now : Int) (prompt : String) (files : FilesArg)
    (env : ChatEnv) : ChatRes :=
  match lookupSid sid st.sessions with
  | none => ⟨st, ChatOutcome.notFound, []⟩
  | some _ =>
    let st1 : St := { st with sessions := touchL sid now st.sessions }
    if files.truthy then
      if !env.fileInputOk then ⟨st1, ChatOutcome.uploadFailure, []⟩
      else
        let r := uploadAll env files.toPaths
        if r.2 then afterUpload st1 files env r.1
        else ⟨st1, ChatOutcome.uploadFailure, r.1⟩
    else afterUpload st1 files env []

/-- Whether a snapshot entry is expired (main.py line 53). -/
def expiredB (now : Int) (p : Nat × SessionInfo) : Bool :=
  decide (now - p.2.last > SESSION_TIMEOUT)

structure CleanRes where
  keep : List (Nat × SessionInfo)
  stops : List Nat
  removedSids : List Nat
deriving DecidableEq

/-- The body of one iteration of `cleanup_expired_sessions`
(main.py lines 50-55): over a snapshot of the dict, stop the browser and pop
the entry of every session with `now - last > SESSION_TIMEOUT`. -/
def cleanupCycle (now : Int) : List (Nat × SessionInfo) → CleanRes
  | [] => ⟨[], [], []⟩
  | (sid, info) :: rest =>
    let r := cleanupCycle now rest
    if expiredB now (sid, info) then ⟨r.keep, info.browser :: r.stops, sid :: r.removedSids⟩
    else ⟨(sid, info) :: r.keep, r.stops, r.removedSids⟩

/-- One reaper cycle applied to the store. -/
def reaperH (st : St) (now : Int) : St :=
  let r := cleanupCycle now st.sessions
  { st with
      sessions := r.keep,
      stopped := st.stopped ++ r.stops,
      removed := r.removedSids ++ st.removed }

/-- Process shutdown (main.py lines 64-68): cancel the reaper (which is
suspended at `asyncio.sleep`, so it never re-enters its loop body) and stop
every remaining browser.  The dict itself is not cleared; instead no further
handler runs (`down`). -/
def shutdownH (st : St) : St :=
  { st with
      stopped := st.stopped ++ st.sessions.map (fun p => p.2.browser),
      down := true }

/-- One atomic step: any public operation at any time, a reaper cycle, or
shutdown, interleaved arbitrarily while the process is up. -/
inductive Step : St → St → Prop
  | create (now : Int) (env : CreateEnv) (st : St) (h : st.down = false) :
      Step st (create_session st now env).1
  | logout (sid : Nat) (st : St) (h : st.down = false) :
      Step st (logoutH st sid).1
  | refresh (sid : Nat) (now : Int) (st : St) (h : st.down = false) :
      Step st (refreshH st sid now).1
  | chat (sid : Nat) (now : Int) (prompt : String) (files : FilesArg) (env : ChatEnv)
      (st : St) (h : st.down = false) :
      Step st (send_chat st sid now prompt files env).st
  | reap (now : Int) (st : St) (h : st.down = false) :
      Step st (reaperH st now)
  | shutdown (st : St) (h : st.down = false) :
      Step st (shutdownH st)

/-- States reachable from process start by interleaving the operations. -/
inductive Reachable : St → Prop
  | init : Reachable initSt
  | step {st st' : St} : Reachable st → Step st st' → Reachable st'

/-! ### Store lemmas -/

theorem lookupSid_mem : ∀ {l : List (Nat × SessionInfo)} {sid : Nat} {info : SessionInfo},
    lookupSid sid l = some info → (sid, info) ∈ l := by
  intro l
  induction l with
  | nil => intro sid info h; simp [lookupSid] at h
  | cons p t ih =>
    intro sid info h
    obtain ⟨k, v⟩ := p
    simp only [lookupSid] at h
    split at h
    · cases h
      subst ‹k = sid›
      exact List.mem_cons_self _ _
    · exact List.mem_cons_of_mem _ (ih h)

theorem lookupSid_eq_none_iff : ∀ {l : List (Nat × SessionInfo)} {sid : Nat},
    lookupSid sid l = none ↔ sid ∉ l.map Prod.fst := by
  intro l
  induction l with
  | nil => intro sid; simp [lookupSid]
  | cons p t ih =>
    intro sid
    obtain ⟨k, v⟩ := p
    simp only [lookupSid, List.map_cons, List.mem_cons]
    by_cases hk : k = sid
    · subst hk
      simp
    · rw [if_neg hk, ih]
      constructor
      · intro hn
        rintro (rfl | hm)
        · exact hk rfl
        · exact hn hm
      · intro hn hm
        exact hn (Or.inr hm)

theorem touchL_map_fst (sid : Nat) (now : Int) (l : List (Nat × SessionInfo)) :
    (touchL sid now l).map Prod.fst = l.map Prod.fst := by
  unfold touchL
  rw [List.map_map]
  apply List.map_congr_left
  intro p _
  by_cases h : p.1 = sid <;> simp [h]

theorem touchL_map_browser (sid : Nat) (now : Int) (l : List (Nat × SessionInfo)) :
    (touchL sid now l).map (fun p => p.2.browser) = l.map (fun p => p.2.browser) := by
  unfold touchL
  rw [List.map_map]
  apply List.map_congr_left
  intro p _
  by_cases h : p.1 = sid <;> simp [h]

theorem touchL_forall {φ : Nat → Nat → Prop} {sid : Nat} {now : Int}
    {l : List (Nat × SessionInfo)} (h : ∀ p ∈ l, φ p.1 p.2.browser) :
    ∀ p ∈ touchL sid now l, φ p.1 p.2.browser := by
  intro p hp
  unfold touchL at hp
  obtain ⟨q, hq, rfl⟩ := List.mem_map.mp hp
  by_cases hqs : q.1 = sid
  · simp only [hqs, if_pos]
    exact hqs ▸ h q hq
  · simp only [hqs, if_neg, not_false_iff]
    exact h q hq

theorem cleanupCycle_eq (now : Int) : ∀ l : List (Nat × SessionInfo),
    cleanupCycle now l =
      ⟨l.filter (fun p => !expiredB now p),
       (l.filter (expiredB now)).map (fun p => p.2.browser),
       (l.filter (expiredB now)).map Prod.fst⟩ := by
  intro l
  induction l with
  | nil => rfl
  | cons p t ih =>
    obtain ⟨sid, info⟩ := p
    simp only [cleanupCycle, ih]
    by_cases h : expiredB now (sid, info) = true
    · simp [h, List.filter_cons]
    · simp [h, List.filter_cons]

theorem afterUpload_st (st : St) (files : FilesArg) (env : ChatEnv) (ups : List String) :
    (afterUpload st files env ups).st = st := by
  unfold afterUpload
  repeat' split
  all_goals rfl

theorem send_chat_st (st : St) (sid : Nat) (now : Int) (prompt : String) (files : FilesArg)
    (env : ChatEnv) :
    (send_chat st sid now prompt files env).st = st ∨
    (send_chat st sid now prompt files env).st =
      { st with sessions := touchL sid now st.sessions } := by
  unfold send_chat
  split
  · left; rfl
  · right
    dsimp only
    split
    · split
      · rfl
      · split
        · exact afterUpload_st _ _ _ _
        · rfl
    · exact afterUpload_st _ _ _ _

/-! ### The lifecycle invariant -/

/-- Invariant of every reachable state.  `stopped` is the log of
`browser.stop()` calls, so `stopped.Nodup` says no engine handle is ever
stopped twice; the remaining fields are the freshness and disjointness facts
that make it inductive.  Fields about the live store are conditional on the
process being up: after shutdown no handler runs. -/
structure Inv (st : St) : Prop where
  stoppedNodup : st.stopped.Nodup
  stoppedLt : ∀ b ∈ st.stopped, b < st.nextBrowser
  keysNodup : st.down = false → (st.sessions.map Prod.fst).Nodup
  browsersNodup : st.down = false → (st.sessions.map (fun p => p.2.browser)).Nodup
  liveNotStopped : st.down = false → ∀ p ∈ st.sessions, p.2.browser ∉ st.stopped
  browsersLt : st.down = false → ∀ p ∈ st.sessions, p.2.browser < st.nextBrowser
  keysLt : st.down = false → ∀ p ∈ st.sessions, p.1 < st.nextSid
  removedLt : st.down = false → ∀ sid ∈ st.removed, sid < st.nextSid
  removedNotKey : st.down = false → ∀ sid ∈ st.removed, sid ∉ st.sessions.map Prod.fst

theorem inv_init : Inv initSt := by
  constructor <;> simp [initSt]

theorem inv_create (st : St) (now : Int) (env : CreateEnv) (hinv : Inv st) :
    Inv (create_session st now env).1 := by
  unfold create_session
  cases hs : env.startOk with
  | false =>
    simp only [hs, Bool.not_false, if_pos]
    exact hinv
  | true =>
    simp only [hs, Bool.not_true, Bool.false_eq_true, if_false]
    cases hl : env.loginOk with
    | false =>
      simp only [hl, Bool.not_false, if_pos]
      refine ⟨hinv.stoppedNodup, ?_, ?_, ?_, ?_, ?_, ?_, ?_, ?_⟩ <;> simp only
      · intro b hb
        have := hinv.stoppedLt b hb
        omega
      · exact hinv.keysNodup
      · exact hinv.browsersNodup
      · exact hinv.liveNotStopped
      · intro hd p hp
        have := hinv.browsersLt hd p hp
        omega
      · exact hinv.keysLt
      · exact hinv.removedLt
      · exact hinv.removedNotKey
    | true =>
      simp only [hl, Bool.not_true, Bool.false_eq_true, if_false]
      refine ⟨hinv.stoppedNodup, ?_, ?_, ?_, ?_, ?_, ?_, ?_, ?_⟩ <;> simp only
      · intro b hb
        have := hinv.stoppedLt b hb
        omega
      · intro hd
        rw [List.map_cons, List.nodup_cons]
        refine ⟨?_, hinv.keysNodup hd⟩
        intro hm
        obtain ⟨p, hp, hp1⟩ := List.mem_map.mp hm
        have := hinv.keysLt hd p hp
        omega
      · intro hd
        rw [List.map_cons, List.nodup_cons]
        refine ⟨?_, hinv.browsersNodup hd⟩
        intro hm
        obtain ⟨p, hp, hp1⟩ := List.mem_map.mp hm
        have := hinv.browsersLt hd p hp
        simp only at hp1
        omega
      · intro hd p hp
        rcases List.mem_cons.mp hp with rfl | hp'
        · intro hmem
          have := hinv.stoppedLt _ hmem
          simp only at this
          omega
        · exact hinv.liveNotStopped hd p hp'
      · intro hd p hp
        rcases List.mem_cons.mp hp with rfl | hp'
        · simp
        · have := hinv.browsersLt hd p hp'
          omega
      · intro hd p hp
        rcases List.mem_cons.mp hp with rfl | hp'
        · simp
        · have := hinv.keysLt hd p hp'
          omega
      · intro hd sid hsid
        have := hinv.removedLt hd sid hsid
        omega
      · intro hd sid hsid
        rw [List.map_cons, List.mem_cons]
        rintro (h1 | h2)
        · have := hinv.removedLt hd sid hsid
          omega
        · exact hinv.removedNotKey hd sid hsid h2

theorem inv_logout (st : St) (sid : Nat) (hd : st.down = false) (hinv : Inv st) :
    Inv (logoutH st sid).1 := by
  unfold logoutH
  cases hl : lookupSid sid st.sessions with
  | none => exact hinv
  | some info =>
    have hmem := lookupSid_mem hl
    have hbrNodup := hinv.browsersNodup hd
    have hkeyNodup := hinv.keysNodup hd
    have hsubl : st.sessions.filter (fun p => !(p.1 == sid)) <+ st.sessions :=
      List.filter_sublist _
    have hmemf : ∀ p ∈ st.sessions.filter (fun p => !(p.1 == sid)),
        p ∈ st.sessions ∧ p.1 ≠ sid := by
      intro p hp
      have := List.mem_filter.mp hp
      refine ⟨this.1, ?_⟩
      simpa using this.2
    refine ⟨?_, ?_, ?_, ?_, ?_, ?_, ?_, ?_, ?_⟩ <;> simp only
    · rw [List.nodup_append]
      refine ⟨hinv.stoppedNodup, List.nodup_singleton _, ?_⟩
      intro b hb
      simp only [List.mem_singleton]
      intro hbe
      subst hbe
      exact hinv.liveNotStopped hd _ hmem hb
    · intro b hb
      rcases List.mem_append.mp hb with h1 | h1
      · exact hinv.stoppedLt b h1
      · rw [List.mem_singleton] at h1
        subst h1
        exact hinv.browsersLt hd _ hmem
    · intro _
      exact (hsubl.map _).nodup hkeyNodup
    · intro _
      exact (hsubl.map _).nodup hbrNodup
    · intro _ p hp hstop
      obtain ⟨hpmem, hpne⟩ := hmemf p hp
      rcases List.mem_append.mp hstop with h1 | h1
      · exact hinv.liveNotStopped hd p hpmem h1
      · rw [List.mem_singleton] at h1
        have : p = (sid, info) :=
          List.inj_on_of_nodup_map hbrNodup hpmem hmem h1
        exact hpne (congrArg Prod.fst this)
    · intro _ p hp
      exact hinv.browsersLt hd p (hmemf p hp).1
    · intro _ p hp
      exact hinv.keysLt hd p (hmemf p hp).1
    · intro _ s hs
      rcases List.mem_cons.mp hs with rfl | h1
      · exact hinv.keysLt hd _ hmem
      · exact hinv.removedLt hd s h1
    · intro _ s hs hkey
      obtain ⟨p, hp, hp1⟩ := List.mem_map.mp hkey
      obtain ⟨hpmem, hpne⟩ := hmemf p hp
      rcases List.mem_cons.mp hs with rfl | h1
      · exact hpne hp1
      · exact hinv.removedNotKey hd s h1 (List.mem_map.mpr ⟨p, hpmem, hp1⟩)

theorem inv_refresh (st : St) (sid : Nat) (now : Int) (hinv : Inv st) :
    Inv (refreshH st sid now).1 := by
  unfold refreshH
  cases hl : lookupSid sid st.sessions with
  | none => exact hinv
  | some info =>
    refine ⟨hinv.stoppedNodup, hinv.stoppedLt, ?_, ?_, ?_, ?_, ?_, hinv.removedLt, ?_⟩ <;>
      simp only
    · intro hd
      rw [touchL_map_fst]
      exact hinv.keysNodup hd
    · intro hd
      rw [touchL_map_browser]
      exact hinv.browsersNodup hd
    · intro hd
      exact @touchL_forall (fun _ b => b ∉ st.stopped) sid now st.sessions
        (fun p hp => hinv.liveNotStopped hd p hp)
    · intro hd
      exact @touchL_forall (fun _ b => b < st.nextBrowser) sid now st.sessions
        (fun p hp => hinv.browsersLt hd p hp)
    · intro hd
      exact @touchL_forall (fun k _ => k < st.nextSid) sid now st.sessions
        (fun p hp => hinv.keysLt hd p hp)
    · intro hd s hs
      rw [touchL_map_fst]
      exact hinv.removedNotKey hd s hs

theorem inv_chat (st : St) (sid : Nat) (now : Int) (prompt : String) (files : FilesArg)
    (env : ChatEnv) (hinv : Inv st) : Inv (send_chat st sid now prompt files env).st := by
  rcases send_chat_st st sid now prompt files env with h | h <;> rw [h]
  · exact hinv
  · refine ⟨hinv.stoppedNodup, hinv.stoppedLt, ?_, ?_, ?_, ?_, ?_, hinv.removedLt, ?_⟩ <;>
      simp only
    · intro hd
      rw [touchL_map_fst]
      exact hinv.keysNodup hd
    · intro hd
      rw [touchL_map_browser]
      exact hinv.browsersNodup hd
    · intro hd
      exact @touchL_forall (fun _ b => b ∉ st.stopped) sid now st.sessions
        (fun p hp => hinv.liveNotStopped hd p hp)
    · intro hd
      exact @touchL_forall (fun _ b => b < st.nextBrowser) sid now st.sessions
        (fun p hp => hinv.browsersLt hd p hp)
    · intro hd
      exact @touchL_forall (fun k _ => k < st.nextSid) sid now st.sessions
        (fun p hp => hinv.keysLt hd p hp)
    · intro hd s hs
      rw [touchL_map_fst]
      exact hinv.removedNotKey hd s hs

theorem inv_reap (st : St) (now : Int) (hd : st.down = false) (hinv : Inv st) :
    Inv (reaperH st now) := by
  unfold reaperH
  rw [cleanupCycle_eq]
  have hkeepsub : st.sessions.filter (fun p => !expiredB now p) <+ st.sessions :=
    List.filter_sublist _
  have hdropsub : st.sessions.filter (expiredB now) <+ st.sessions :=
    List.filter_sublist _
  have hstopsNodup : ((st.sessions.filter (expiredB now)).map (fun p => p.2.browser)).Nodup :=
    (hdropsub.map _).nodup (hinv.browsersNodup hd)
  have hstopsSub : ∀ b ∈ (st.sessions.filter (expiredB now)).map (fun p => p.2.browser),
      ∃ q, q ∈ st.sessions ∧ expiredB now q = true ∧ q.2.browser = b := by
    intro b hb
    obtain ⟨q, hq, rfl⟩ := List.mem_map.mp hb
    have := List.mem_filter.mp hq
    exact ⟨q, this.1, this.2, rfl⟩
  refine ⟨?_, ?_, ?_, ?_, ?_, ?_, ?_, ?_, ?_⟩ <;> simp only
  · rw [List.nodup_append]
    refine ⟨hinv.stoppedNodup, hstopsNodup, ?_⟩
    intro b hb hbs
    obtain ⟨q, hq, _, rfl⟩ := hstopsSub _ hbs
    exact hinv.liveNotStopped hd q hq hb
  · intro b hb
    rcases List.mem_append.mp hb with h1 | h1
    · exact hinv.stoppedLt b h1
    · obtain ⟨q, hq, _, rfl⟩ := hstopsSub _ h1
      exact hinv.browsersLt hd q hq
  · intro _
    exact (hkeepsub.map _).nodup (hinv.keysNodup hd)
  · intro _
    exact (hkeepsub.map _).nodup (hinv.browsersNodup hd)
  · intro _ p hp hstop
    have hpf := List.mem_filter.mp hp
    rcases List.mem_append.mp hstop with h1 | h1
    · exact hinv.liveNotStopped hd p hpf.1 h1
    · obtain ⟨q, hqsess, hqe, hqb⟩ := hstopsSub _ h1
      have hqp : q = p := List.inj_on_of_nodup_map (hinv.browsersNodup hd) hqsess hpf.1 hqb
      rw [hqp] at hqe
      have h2 := hpf.2
      rw [hqe] at h2
      simp at h2
  · intro _ p hp
    exact hinv.browsersLt hd p (List.mem_filter.mp hp).1
  · intro _ p hp
    exact hinv.keysLt hd p (List.mem_filter.mp hp).1
  · intro _ s hs
    rcases List.mem_append.mp hs with h1 | h1
    · obtain ⟨q, hq, rfl⟩ := List.mem_map.mp h1
      exact hinv.keysLt hd q (List.mem_filter.mp hq).1
    · exact hinv.removedLt hd s h1
  · intro _ s hs hkey
    obtain ⟨p, hp, hp1⟩ := List.mem_map.mp hkey
    have hpf := List.mem_filter.mp hp
    rcases List.mem_append.mp hs with h1 | h1
    · obtain ⟨q, hq, hq1⟩ := List.mem_map.mp h1
      have hqf := List.mem_filter.mp hq
      have hqp : q = p :=
        List.inj_on_of_nodup_map (hinv.keysNodup hd) hqf.1 hpf.1 (by rw [hq1, hp1])
      have h2 := hpf.2
      rw [← hqp, hqf.2] at h2
      simp at h2
    · exact hinv.removedNotKey hd s h1 (List.mem_map.mpr ⟨p, hpf.1, hp1⟩)

theorem inv_shutdown (st : St) (hd : st.down = false) (hinv : Inv st) : Inv (shutdownH st) := by
  unfold shutdownH
  refine ⟨?_, ?_, ?_, ?_, ?_, ?_, ?_, ?_, ?_⟩ <;> simp only
  · rw [List.nodup_append]
    refine ⟨hinv.stoppedNodup, hinv.browsersNodup hd, ?_⟩
    intro b hb hbs
    obtain ⟨q, hq, rfl⟩ := List.mem_map.mp hbs
    exact hinv.liveNotStopped hd q hq hb
  · intro b hb
    rcases List.mem_append.mp hb with h1 | h1
    · exact hinv.stoppedLt b h1
    · obtain ⟨q, hq, rfl⟩ := List.mem_map.mp h1
      exact hinv.browsersLt hd q hq
  · intro h; simp at h
  · intro h; simp at h
  · intro h; simp at h
  · intro h; simp at h
  · intro h; simp at h
  · intro h; simp at h
  · intro h; simp at h

theorem inv_step {st st' : St} (hinv : Inv st) (hs : Step st st') : Inv st' := by
  cases hs with
  | create now env _ h => exact inv_create _ now env hinv
  | logout sid _ h => exact inv_logout _ sid h hinv
  | refresh sid now _ h => exact inv_refresh _ sid now hinv
  | chat sid now prompt files env _ h => exact inv_chat _ sid now prompt files env hinv
  | reap now _ h => exact inv_reap _ now h hinv
  | shutdown _ h => exact inv_shutdown _ h hinv

theorem reachable_inv : ∀ {st : St}, Reachable st → Inv st := by
  intro st h
  induction h with
  | init => exact inv_init
  | step _ hs ih => exact inv_step ih hs

/-! ## Claim C1 -/

/-- C1: in every state reachable by interleaving the public operations
(create, refresh, chat, logout) with reaper cycles and process shutdown, each
engine handle is stopped at most once.  `stopped` logs every
`browser.stop()` call — whether issued by `logout` (line 113), by a reaper
cycle (line 54) or by shutdown (line 68) — so its being duplicate-free says
teardown happens at most once per handle, hence never both via logout and via
the reaper; and while the process is up, no live session's handle has ever
been stopped, so any later removal of that id performs the sole teardown.
Each handler application is one atomic step because its store-mutating
section contains no `await`. -/
theorem c1_stop_at_most_once (st : St) (h : Reachable st) :
    st.stopped.Nodup ∧
      (st.down = false → ∀ p ∈ st.sessions, p.2.browser ∉ st.stopped) :=
  ⟨(reachable_inv h).stoppedNodup, (reachable_inv h).liveNotStopped⟩

def envAllOk : CreateEnv := ⟨true, true, true, true, true, true, true, true, true⟩

/-- C1 witness: the state reached by create, logout, then one reaper cycle. -/
theorem c1_witness :
    ((reaperH (logoutH (create_session initSt 0 envAllOk).1 0).1 700).stopped.Nodup ∧
      ((reaperH (logoutH (create_session initSt 0 envAllOk).1 0).1 700).down = false →
        ∀ p ∈ (reaperH (logoutH (create_session initSt 0 envAllOk).1 0).1 700).sessions,
          p.2.browser ∉
            (reaperH (logoutH (create_session initSt 0 envAllOk).1 0).1 700).stopped)) :=
  c1_stop_at_most_once _
    (Reachable.step
      (Reachable.step (Reachable.step Reachable.init (Step.create 0 envAllOk initSt rfl))
        (Step.logout 0 _ (by decide)))
      (Step.reap 700 _ (by decide)))

/-! ## Claim C2 -/

/-- C2: one reaper cycle, applied to a snapshot of the store whose engine
handles are pairwise distinct (an invariant of reachable states), keeps
exactly the entries with `now - last ≤ SESSION_TIMEOUT` (unchanged), stops
exactly the browsers of the evicted entries — each exactly once — and
`SESSION_TIMEOUT` is 600 seconds.  In particular an entry touched less than
`SESSION_TIMEOUT` before the cycle is kept intact. -/
theorem c2_reaper_cycle (now : Int) (l : List (Nat × SessionInfo))
    (hnd : (l.map (fun p => p.2.browser)).Nodup) :
    SESSION_TIMEOUT = 600 ∧
    (cleanupCycle now l).keep = l.filter (fun p => !expiredB now p) ∧
    (cleanupCycle now l).stops = (l.filter (expiredB now)).map (fun p => p.2.browser) ∧
    (∀ p ∈ l, now - p.2.last > SESSION_TIMEOUT →
      p ∉ (cleanupCycle now l).keep ∧ (cleanupCycle now l).stops.count p.2.browser = 1) ∧
    (∀ p ∈ l, ¬ (now - p.2.last > SESSION_TIMEOUT) →
      p ∈ (cleanupCycle now l).keep ∧ p.2.browser ∉ (cleanupCycle now l).stops) := by
  rw [cleanupCycle_eq]
  refine ⟨rfl, rfl, rfl, ?_, ?_⟩
  · intro p hp hexp
    have hexpB : expiredB now p = true := by
      unfold expiredB
      exact decide_eq_true hexp
    constructor
    · intro hk
      have := (List.mem_filter.mp hk).2
      rw [hexpB] at this
      simp at this
    · apply List.count_eq_one_of_mem
      · exact ((List.filter_sublist _).map _).nodup hnd
      · exact List.mem_map.mpr ⟨p, List.mem_filter.mpr ⟨hp, hexpB⟩, rfl⟩
  · intro p hp hexp
    have hexpB : expiredB now p = false := by
      unfold expiredB
      exact decide_eq_false hexp
    constructor
    · exact List.mem_filter.mpr ⟨hp, by rw [hexpB]; rfl⟩
    · intro hmem
      obtain ⟨q, hq, hqb⟩ := List.mem_map.mp hmem
      have hqf := List.mem_filter.mp hq
      have : q = p := List.inj_on_of_nodup_map hnd hqf.1 hp hqb
      rw [this] at hqf
      rw [hexpB] at hqf
      exact absurd hqf.2 (by simp)

/-- C2 witness: a two-session snapshot, one expired and one fresh. -/
theorem c2_witness :
    SESSION_TIMEOUT = 600 ∧
    (cleanupCycle 1000 [(0, ⟨0, 0⟩), (1, ⟨1, 900⟩)]).keep =
      [(0, ⟨0, 0⟩), (1, ⟨1, 900⟩)].filter (fun p => !expiredB 1000 p) ∧
    (cleanupCycle 1000 [(0, ⟨0, 0⟩), (1, ⟨1, 900⟩)]).stops =
      ([(0, ⟨0, 0⟩), (1, ⟨1, 900⟩)].filter (expiredB 1000)).map (fun p => p.2.browser) ∧
    (∀ p ∈ [((0 : Nat), (⟨0, 0⟩ : SessionInfo)), (1, ⟨1, 900⟩)],
      1000 - p.2.last > SESSION_TIMEOUT →
      p ∉ (cleanupCycle 1000 [(0, ⟨0, 0⟩), (1, ⟨1, 900⟩)]).keep ∧
      (cleanupCycle 1000 [(0, ⟨0, 0⟩), (1, ⟨1, 900⟩)]).stops.count p.2.browser = 1) ∧
    (∀ p ∈ [((0 : Nat), (⟨0, 0⟩ : SessionInfo)), (1, ⟨1, 900⟩)],
      ¬ (1000 - p.2.last > SESSION_TIMEOUT) →
      p ∈ (cleanupCycle 1000 [(0, ⟨0, 0⟩), (1, ⟨1, 900⟩)]).keep ∧
      p.2.browser ∉ (cleanupCycle 1000 [(0, ⟨0, 0⟩), (1, ⟨1, 900⟩)]).stops) :=
  c2_reaper_cycle 1000 [(0, ⟨0, 0⟩), (1, ⟨1, 900⟩)] (by decide)

/-! ## Claim C3 -/

theorem create_session_removed (st : St) (now : Int) (env : CreateEnv) :
    (create_session st now env).1.removed = st.removed := by
  unfold create_session
  cases hs : env.startOk <;> cases hl : env.loginOk <;> simp

/-- Each step only grows the set of removed ids. -/
theorem step_removed_mono {st st' : St} (hs : Step st st') :
    ∀ s ∈ st.removed, s ∈ st'.removed := by
  intro s hmem
  cases hs with
  | create now env _ _ => rw [create_session_removed]; exact hmem
  | logout sid _ _ =>
    unfold logoutH
    cases hl : lookupSid sid _ with
    | none => exact hmem
    | some info => exact List.mem_cons_of_mem _ hmem
  | refresh sid now _ _ =>
    unfold refreshH
    cases hl : lookupSid sid _ with
    | none => exact hmem
    | some info => exact hmem
  | chat sid now prompt files env _ _ =>
    rcases send_chat_st _ sid now prompt files env with h | h <;> rw [h]
    · exact hmem
    · exact hmem
  | reap now _ _ =>
    unfold reaperH
    exact List.mem_append.mpr (Or.inr hmem)
  | shutdown _ _ => exact hmem

/-- C3: (1) immediately after a successful `create_session` returns an id,
looking it up yields the freshly registered session; (2) once an id is in
`removed` (by logout or reaper eviction), lookup fails and each of refresh,
chat and logout on it returns NotFound (404); (3) removal is permanent: no
step resurrects a removed id.  Ids are modelled as fresh counter values,
matching the unguessable, never-repeating `secrets.token_urlsafe(16)`
tokens. -/
theorem c3_lookup_and_removal_permanent :
    (∀ (st : St) (now : Int) (env : CreateEnv) (sid : Nat),
      (create_session st now env).2 = Except.ok sid →
      lookupSid sid (create_session st now env).1.sessions = some ⟨st.nextBrowser, now⟩) ∧
    (∀ st : St, Reachable st → st.down = false →
      ∀ sid ∈ st.removed, ∀ (now : Int) (prompt : String) (files : FilesArg) (env : ChatEnv),
      lookupSid sid st.sessions = none ∧
      (refreshH st sid now).2 = SimpleResp.notFound ∧
      (logoutH st sid).2 = SimpleResp.notFound ∧
      (send_chat st sid now prompt files env).outcome = ChatOutcome.notFound) ∧
    (∀ st st' : St, Reachable st → Step st st' → st'.down = false →
      ∀ sid ∈ st.removed,
      sid ∈ st'.removed ∧ lookupSid sid st'.sessions = none) := by
  refine ⟨?_, ?_, ?_⟩
  · intro st now env sid h
    unfold create_session at h ⊢
    cases hs : env.startOk with
    | false => rw [hs] at h; simp at h
    | true =>
      rw [hs] at h
      simp only [Bool.not_true, Bool.false_eq_true, if_false] at h ⊢
      cases hl : env.loginOk with
      | false => rw [hl] at h; simp at h
      | true =>
        rw [hl] at h
        simp only [Bool.not_true, Bool.false_eq_true, if_false] at h ⊢
        simp only [Except.ok.injEq] at h
        subst h
        simp [lookupSid]
  · intro st hre hd sid hmem now prompt files env
    have hnone : lookupSid sid st.sessions = none :=
      lookupSid_eq_none_iff.mpr ((reachable_inv hre).removedNotKey hd sid hmem)
    refine ⟨hnone, ?_, ?_, ?_⟩
    · unfold refreshH
      rw [hnone]
    · unfold logoutH
      rw [hnone]
    · unfold send_chat
      rw [hnone]
  · intro st st' hre hstep hd' sid hmem
    have hmem' := step_removed_mono hstep sid hmem
    refine ⟨hmem', ?_⟩
    exact lookupSid_eq_none_iff.mpr
      ((reachable_inv (Reachable.step hre hstep)).removedNotKey hd' sid hmem')

def envChatTriv : ChatEnv :=
  ⟨true, fun _ => true, fun _ => false, true, true, true, true, []⟩

/-- C3 witness: after create (id 0) and logout of 0, every operation on id 0
is NotFound, and a further refresh step does not resurrect it. -/
theorem c3_witness :
    lookupSid 0 (create_session initSt 5 envAllOk).1.sessions = some ⟨0, 5⟩ ∧
    (refreshH (logoutH (create_session initSt 5 envAllOk).1 0).1 0 9).2 =
      SimpleResp.notFound ∧
    (send_chat (logoutH (create_session initSt 5 envAllOk).1 0).1 0 9 "hello"
      FilesArg.null envChatTriv).outcome = ChatOutcome.notFound ∧
    (0 ∈ (refreshH (logoutH (create_session initSt 5 envAllOk).1 0).1 0 9).1.removed ∧
      lookupSid 0 (refreshH (logoutH (create_session initSt 5 envAllOk).1 0).1 0 9).1.sessions =
        none) := by
  have htrace : Reachable (logoutH (create_session initSt 5 envAllOk).1 0).1 :=
    Reachable.step (Reachable.step Reachable.init (Step.create 5 envAllOk initSt rfl))
      (Step.logout 0 _ (by decide))
  refine ⟨?_, ?_, ?_, ?_⟩
  · exact c3_lookup_and_removal_permanent.1 initSt 5 envAllOk 0 rfl
  · exact (c3_lookup_and_removal_permanent.2.1 _ htrace (by decide) 0 (by decide)
      9 "hello" FilesArg.null envChatTriv).2.1
  · exact (c3_lookup_and_removal_permanent.2.1 _ htrace (by decide) 0 (by decide)
      9 "hello" FilesArg.null envChatTriv).2.2.2
  · exact c3_lookup_and_removal_permanent.2.2 _ _ htrace (Step.refresh 0 9 _ (by decide))
      (by decide) 0 (by decide)

/-! ## Claim C4 -/

/-- C4: if any step of the login flow raises (browser launch, navigation,
body-render wait, username or password field lookup or fill, login-button
lookup or click), `create_session` returns the propagated error and the
session store is unchanged: no Session is registered. -/
theorem c4_failed_create_leaves_store_unchanged (st : St) (now : Int) (env : CreateEnv)
    (h : (env.startOk && env.loginOk) = false) :
    (create_session st now env).2 = Except.error () ∧
    (create_session st now env).1.sessions = st.sessions := by
  unfold create_session
  cases hs : env.startOk with
  | false => simp
  | true =>
    rw [hs] at h
    simp only [Bool.true_and] at h
    simp [h]

def envBodyFails : CreateEnv := ⟨true, true, false, true, true, true, true, true, true⟩

/-- C4 witness: a login flow whose body-render wait fails. -/
theorem c4_witness :
    (create_session initSt 5 envBodyFails).2 = Except.error () ∧
    (create_session initSt 5 envBodyFails).1.sessions = initSt.sessions :=
  c4_failed_create_leaves_store_unchanged initSt 5 envBodyFails (by decide)

/-! ## Claims C5 and C10 -/

theorem afterUpload_not_uploadFailure (st : St) (files : FilesArg) (env : ChatEnv)
    (ups : List String) :
    (afterUpload st files env ups).outcome ≠ ChatOutcome.uploadFailure := by
  unfold afterUpload
  repeat' split
  all_goals simp

theorem afterUpload_ups (st : St) (files : FilesArg) (env : ChatEnv) (ups : List String) :
    (afterUpload st files env ups).uploadsPerformed = ups := by
  unfold afterUpload
  repeat' split
  all_goals rfl

theorem afterUpload_ok_echo (st : St) (files : FilesArg) (env : ChatEnv) (ups : List String) :
    ∀ r fu, (afterUpload st files env ups).outcome = ChatOutcome.ok r fu →
      fu = (if files.truthy then some files else none) := by
  unfold afterUpload
  repeat' split
  all_goals intro r fu h
  all_goals dsimp only at h
  any_goals simp only [reduceCtorEq] at h
  all_goals rw [ChatOutcome.ok.injEq] at h
  all_goals exact h.2.symm

/-- With every `send_file` call succeeding, the attachment loop uploads
exactly the paths that exist on disk, in order, and finishes cleanly. -/
theorem uploadAll_all_ok (env : ChatEnv) (hsend : ∀ p, env.sendFileOk p = true) :
    ∀ paths : List String, uploadAll env paths = (paths.filter env.existsOnDisk, true) := by
  intro paths
  induction paths with
  | nil => rfl
  | cons p rest ih =>
    unfold uploadAll
    by_cases he : env.existsOnDisk p = true
    · rw [if_pos he, if_pos (hsend p), ih, List.filter_cons, if_pos he]
    · rw [if_neg he, ih, List.filter_cons, if_neg he]

/-- C5: in a chat turn with attachments, (1) if the file-input lookup and
every issued `send_file` call succeed, a path that does not exist on disk is
silently skipped: the turn does not fail with an upload error, `send_file` is
never invoked on that path, and on success the `files_uploaded` echo is the
verbatim requested `files` value (the skipped path appears in it, with no
claim of upload success for it); (2) an exception in the file-input lookup
aborts the turn with the 500 upload-failure error; (3) so does an exception
raised by any executed `send_file`. -/
theorem c5_missing_attachment_skipped (st : St) (sid : Nat) (now : Int) (prompt : String)
    (env : ChatEnv) :
    (∀ (paths : List String) (q : String) (info : SessionInfo),
      lookupSid sid st.sessions = some info →
      env.fileInputOk = true →
      (∀ p, env.sendFileOk p = true) →
      q ∈ paths → env.existsOnDisk q = false →
      (send_chat st sid now prompt (FilesArg.list paths) env).outcome ≠
          ChatOutcome.uploadFailure ∧
        q ∉ (send_chat st sid now prompt (FilesArg.list paths) env).uploadsPerformed ∧
        (∀ r fu,
          (send_chat st sid now prompt (FilesArg.list paths) env).outcome =
            ChatOutcome.ok r fu →
          fu = some (FilesArg.list paths))) ∧
    (∀ (files : FilesArg) (info : SessionInfo),
      lookupSid sid st.sessions = some info → files.truthy = true →
      env.fileInputOk = false →
      (send_chat st sid now prompt files env).outcome = ChatOutcome.uploadFailure) ∧
    (∀ (files : FilesArg) (info : SessionInfo),
      lookupSid sid st.sessions = some info → files.truthy = true →
      env.fileInputOk = true →
      (uploadAll env files.toPaths).2 = false →
      (send_chat st sid now prompt files env).outcome = ChatOutcome.uploadFailure) := by
  refine ⟨?_, ?_, ?_⟩
  · intro paths q info hlk hfi hsend hq hne
    have htr : (FilesArg.list paths).truthy = true := by
      simp only [FilesArg.truthy, Bool.not_eq_true']
      rw [List.isEmpty_eq_false_iff_exists_mem]
      exact ⟨q, hq⟩
    have hup := uploadAll_all_ok env hsend (FilesArg.list paths).toPaths
    have hred : send_chat st sid now prompt (FilesArg.list paths) env =
        afterUpload { st with sessions := touchL sid now st.sessions }
          (FilesArg.list paths) env (paths.filter env.existsOnDisk) := by
      unfold send_chat
      rw [hlk]
      simp only [htr, if_pos, hfi, Bool.not_true, Bool.false_eq_true, if_false, hup]
      simp only [FilesArg.toPaths]
    rw [hred]
    refine ⟨afterUpload_not_uploadFailure _ _ _ _, ?_, ?_⟩
    · rw [afterUpload_ups]
      intro hmem
      exact absurd (List.mem_filter.mp hmem).2 (by rw [hne]; simp)
    · intro r fu h
      have := afterUpload_ok_echo _ _ _ _ r fu h
      rw [htr] at this
      simpa using this
  · intro files info hlk htr hfi
    unfold send_chat
    rw [hlk]
    simp only [htr, if_pos, hfi, Bool.not_false, if_pos]
  · intro files info hlk htr hfi hfail
    unfold send_chat
    rw [hlk]
    simp only [htr, if_pos, hfi, Bool.not_true, Bool.false_eq_true, if_false, hfail]

def stOne : St := (create_session initSt 5 envAllOk).1

def envChatMissing : ChatEnv :=
  ⟨true, fun _ => true, fun p => p == "/tmp/exists.txt", true, true, true, true,
    ["<p>answer</p>"]⟩

/-- C5 witness: one existing and one missing attachment path. -/
theorem c5_witness :
    ((send_chat stOne 0 6 "hi" (FilesArg.list ["/tmp/exists.txt", "/tmp/missing.txt"])
        envChatMissing).outcome ≠ ChatOutcome.uploadFailure ∧
      "/tmp/missing.txt" ∉ (send_chat stOne 0 6 "hi"
        (FilesArg.list ["/tmp/exists.txt", "/tmp/missing.txt"])
          envChatMissing).uploadsPerformed ∧
      (∀ r fu, (send_chat stOne 0 6 "hi"
          (FilesArg.list ["/tmp/exists.txt", "/tmp/missing.txt"]) envChatMissing).outcome =
            ChatOutcome.ok r fu →
        fu = some (FilesArg.list ["/tmp/exists.txt", "/tmp/missing.txt"]))) :=
  (c5_missing_attachment_skipped stOne 0 6 "hi" envChatMissing).1
    ["/tmp/exists.txt", "/tmp/missing.txt"] "/tmp/missing.txt" ⟨0, 5⟩ rfl rfl
    (fun _ => rfl) (by decide) (by decide)

/-- Under the stated success conditions, a chat turn reaches the
response-extraction step. -/
theorem send_chat_reaches_extraction (st : St) (sid : Nat) (now : Int) (prompt : String)
    (files : FilesArg) (env : ChatEnv) (info : SessionInfo)
    (hlk : lookupSid sid st.sessions = some info)
    (hup : files.truthy = false ∨
      (env.fileInputOk = true ∧ (uploadAll env files.toPaths).2 = true)) :
    ∃ ups, send_chat st sid now prompt files env =
      afterUpload { st with sessions := touchL sid now st.sessions } files env ups := by
  unfold send_chat
  rw [hlk]
  by_cases htr : files.truthy = true
  · rcases hup with h | ⟨hfi, hr⟩
    · rw [htr] at h; cases h
    · simp only [htr, if_pos, hfi, Bool.not_true, Bool.false_eq_true, if_false, hr]
      exact ⟨(uploadAll env files.toPaths).1, rfl⟩
  · rw [Bool.not_eq_true] at htr
    simp only [htr, Bool.false_eq_true, if_false]
    exact ⟨[], rfl⟩

/-- C10: the response extraction of main.py lines 184-185 takes
`response_elements[-1]` with no emptiness guard.  When the membership check,
the attachment stage and the input/send/response steps all pass: if zero
elements match the response selector, the turn ends in an unhandled
index-out-of-range fault — a generic fault distinct from the NotFound and
UploadFailure classes — and if at least one matches, the last one is
normalized and returned.  The extraction step implicitly requires at least
one response element. -/
theorem c10_extraction_requires_response_element (st : St) (sid : Nat) (now : Int)
    (prompt : String) (files : FilesArg) (env : ChatEnv) (info : SessionInfo)
    (hlk : lookupSid sid st.sessions = some info)
    (hup : files.truthy = false ∨
      (env.fileInputOk = true ∧ (uploadAll env files.toPaths).2 = true))
    (h1 : env.chatInputOk = true) (h2 : env.promptKeysOk = true)
    (h3 : env.sendLoopTerm = true) (h4 : env.respLoopTerm = true) :
    (env.responseElems = [] →
      (send_chat st sid now prompt files env).outcome = ChatOutcome.indexError) ∧
    (env.responseElems ≠ [] → ∃ e,
      env.responseElems.getLast? = some e ∧
      (send_chat st sid now prompt files env).outcome =
        ChatOutcome.ok (extract_text_from_html e)
          (if files.truthy then some files else none)) ∧
    ChatOutcome.indexError ≠ ChatOutcome.notFound ∧
    ChatOutcome.indexError ≠ ChatOutcome.uploadFailure := by
  obtain ⟨ups, hred⟩ := send_chat_reaches_extraction st sid now prompt files env info hlk hup
  rw [hred]
  unfold afterUpload
  simp only [h1, h2, h3, h4, Bool.not_true, Bool.false_eq_true, if_false]
  refine ⟨?_, ?_, by simp, by simp⟩
  · intro he
    rw [he]
    rfl
  · intro he
    obtain ⟨e, hl⟩ := Option.ne_none_iff_exists'.mp (mt List.getLast?_eq_none_iff.mp he)
    rw [hl]
    exact ⟨e, rfl, rfl⟩

def envChatEmpty : ChatEnv :=
  ⟨true, fun _ => true, fun _ => false, true, true, true, true, []⟩

/-- C10 witness: zero response elements yields the index fault. -/
theorem c10_witness :
    (send_chat stOne 0 6 "hi" FilesArg.null envChatEmpty).outcome =
      ChatOutcome.indexError :=
  (c10_extraction_requires_response_element stOne 0 6 "hi" FilesArg.null envChatEmpty
    ⟨0, 5⟩ rfl (Or.inl rfl) rfl rfl rfl rfl).1 rfl

end AIHandler
